import Mathlib

/-!
Verification of ralph-orchestrator against its specification.

Strings are embedded as `List Char`; Rust's `str::find`, `str::contains`,
`str::split` and the event-parser loops are translated to executable Lean
functions.  Loops that consume their input are expressed with an explicit
fuel argument bounded by the input length, so that every definition is a
computable structural recursion.
-/

namespace Ralph

/-- Converts a Lean string literal to the `List Char` representation used
throughout this development. -/
def s2l (s : String) : List Char :=
  s.data

/-- Byte-wise prefix test, mirroring how Rust's `str::find` matches a
pattern at a position. -/
def isPrefixL : List Char → List Char → Bool
  | [], _ => true
  | _ :: _, [] => false
  | a :: as, b :: bs => a == b && isPrefixL as bs

/-- Embedding of Rust's `str::find(pattern)`: index of the first occurrence
of `pat` in `l`, if any. -/
def findSub (l pat : List Char) : Option Nat :=
  if isPrefixL pat l then some 0
  else
    match l with
    | [] => none
    | _ :: tl => (findSub tl pat).map (· + 1)

/-- Embedding of Rust's `str::contains(pattern)`. -/
def containsSub (l pat : List Char) : Bool :=
  (findSub l pat).isSome

/-- The pattern `pat` occurs in `l` at index `i`. -/
def occursAt (l pat : List Char) (i : Nat) : Bool :=
  isPrefixL pat (l.drop i)

/-- The opening token `"<event "` searched for by the event parser. -/
def openTok : List Char :=
  s2l "<event "

/-- The closing token `"</event>"` searched for by the event parser. -/
def closeTok : List Char :=
  s2l "</event>"

/-- Fuel-indexed embedding of `EventParser::strip_event_tags`: repeatedly
find `"<event "`, and if a later `"</event>"` exists drop everything from
the opening token through the closer, otherwise keep the rest verbatim
(the source comments this branch "Malformed: no closing tag, keep the rest
and stop").  Each loop iteration of the source consumes at least eight
characters, so fuel `|output| + 1` always suffices. -/
def stripAux : Nat → List Char → List Char
  | 0, output => output
  | fuel + 1, output =>
    match findSub output openTok with
    | none => output
    | some startIdx =>
      let afterStart := output.drop startIdx
      match findSub afterStart closeTok with
      | none => output.take startIdx ++ afterStart
      | some closeIdx =>
        output.take startIdx ++ stripAux fuel (afterStart.drop (closeIdx + 8))

/-- Embedding of `EventParser::strip_event_tags`. -/
def strip_event_tags (output : List Char) : List Char :=
  stripAux (output.length + 1) output

/-- Embedding of `EventParser::contains_promise`: strip event blocks, then
check for the promise as a literal substring. -/
def contains_promise (output promise : List Char) : Bool :=
  containsSub (strip_event_tags output) promise

theorem isPrefixL_iff (p l : List Char) : isPrefixL p l = true ↔ ∃ t, l = p ++ t := by
  induction p generalizing l with
  | nil => simp [isPrefixL]
  | cons a as ih =>
    cases l with
    | nil => simp [isPrefixL]
    | cons b bs =>
      simp only [isPrefixL, Bool.and_eq_true, beq_iff_eq, ih, List.cons_append, List.cons.injEq]
      constructor
      · rintro ⟨hab, t, ht⟩
        exact ⟨t, hab.symm, ht⟩
      · rintro ⟨t, hba, ht⟩
        exact ⟨hba.symm, t, ht⟩

theorem findSub_sound (l pat : List Char) (i : Nat) (h : findSub l pat = some i) :
    occursAt l pat i = true := by
  induction l generalizing i with
  | nil =>
    rw [findSub] at h
    split at h
    · rename_i hp
      simp at h
      subst h
      simpa [occursAt] using hp
    · simp at h
  | cons b bs ih =>
    rw [findSub] at h
    split at h
    · rename_i hp
      simp at h
      subst h
      simpa [occursAt] using hp
    · simp only [Option.map_eq_some'] at h
      obtain ⟨j, hj, hij⟩ := h
      subst hij
      simpa [occursAt] using ih j hj

theorem findSub_min (l pat : List Char) (i : Nat) (h : findSub l pat = some i) :
    ∀ j, j < i → occursAt l pat j = false := by
  induction l generalizing i with
  | nil =>
    rw [findSub] at h
    split at h
    · simp at h
      subst h
      omega
    · simp at h
  | cons b bs ih =>
    rw [findSub] at h
    split at h
    · simp at h
      subst h
      omega
    · rename_i hp
      simp only [Option.map_eq_some'] at h
      obtain ⟨j, hj, hij⟩ := h
      subst hij
      intro k hk
      match k with
      | 0 => simpa [occursAt] using hp
      | k + 1 =>
        have := ih j hj k (by omega)
        simpa [occursAt] using this

theorem findSub_complete (l pat : List Char) (i : Nat) (h : occursAt l pat i = true) :
    (findSub l pat).isSome = true := by
  induction l generalizing i with
  | nil =>
    rw [findSub]
    split
    · simp
    · rename_i hp
      exfalso
      apply hp
      simpa [occursAt] using h
  | cons b bs ih =>
    rw [findSub]
    split
    · simp
    · rename_i hp
      match i with
      | 0 =>
        exfalso
        apply hp
        simpa [occursAt] using h
      | i + 1 =>
        have := ih i (by simpa [occursAt] using h)
        simpa using this

theorem contains_of_occursAt (l pat : List Char) (i : Nat) (h : occursAt l pat i = true) :
    containsSub l pat = true :=
  findSub_complete l pat i h

theorem findSub_none (l pat : List Char) (h : findSub l pat = none) (i : Nat) :
    occursAt l pat i = false := by
  by_contra hc
  have : occursAt l pat i = true := by
    cases ho : occursAt l pat i
    · exact absurd ho hc
    · rfl
  have := findSub_complete l pat i this
  rw [h] at this
  simp at this

theorem occursAt_bound (l pat : List Char) (i : Nat) (hne : pat ≠ [])
    (h : occursAt l pat i = true) : i + pat.length ≤ l.length := by
  rw [occursAt, isPrefixL_iff] at h
  obtain ⟨t, ht⟩ := h
  by_cases hi : i ≤ l.length
  · have := congrArg List.length ht
    simp [List.length_drop] at this
    omega
  · exfalso
    have : l.drop i = [] := List.drop_eq_nil_of_le (by omega)
    rw [this] at ht
    have := List.append_eq_nil.mp ht.symm
    exact hne this.1

theorem occursAt_append_left (a b pat : List Char) (i : Nat)
    (h : occursAt a pat i = true) : occursAt (a ++ b) pat i = true := by
  rw [occursAt, isPrefixL_iff] at h ⊢
  obtain ⟨t, ht⟩ := h
  refine ⟨t ++ b.drop (i - a.length), ?_⟩
  rw [List.drop_append_eq_append_drop, ht, List.append_assoc]

theorem occursAt_append_right (a b pat : List Char) (j : Nat)
    (h : occursAt b pat j = true) : occursAt (a ++ b) pat (a.length + j) = true := by
  rw [occursAt, isPrefixL_iff] at h ⊢
  obtain ⟨t, ht⟩ := h
  refine ⟨t, ?_⟩
  rw [List.drop_append_eq_append_drop]
  have h1 : a.drop (a.length + j) = [] := List.drop_eq_nil_of_le (by omega)
  have h2 : a.length + j - a.length = j := by omega
  rw [h1, h2, ht]
  simp

theorem occursAt_take (l pat : List Char) (i s : Nat) (hs : i + pat.length ≤ s)
    (h : occursAt l pat i = true) : occursAt (l.take s) pat i = true := by
  rw [occursAt, isPrefixL_iff] at h ⊢
  obtain ⟨t, ht⟩ := h
  refine ⟨t.take (s - i - pat.length), ?_⟩
  rw [List.drop_take, ht, List.take_append_eq_append_take,
    List.take_of_length_le (by omega)]

theorem occursAt_drop (l pat : List Char) (i k : Nat) (hk : k ≤ i)
    (h : occursAt l pat i = true) : occursAt (l.drop k) pat (i - k) = true := by
  rw [occursAt] at h ⊢
  rw [List.drop_drop]
  have : k + (i - k) = i := by omega
  rw [this]
  exact h

theorem isPrefixL_getElem (p l : List Char) (h : isPrefixL p l = true) (j : Nat)
    (hj : j < p.length) : l[j]? = p[j]? := by
  rw [isPrefixL_iff] at h
  obtain ⟨t, ht⟩ := h
  rw [ht]
  simp [List.getElem?_append, hj]

theorem occursAt_drop_abs (l pat : List Char) (k j : Nat)
    (h : occursAt (l.drop k) pat j = true) : occursAt l pat (k + j) = true := by
  rw [occursAt] at h ⊢
  rwa [List.drop_drop] at h

/-- The output has at least one completed event block: an `"<event "` token
with a `"</event>"` token at or after it.  This is exactly the condition
under which the strip loop removes anything. -/
def hasCompletedBlock (output : List Char) : Bool :=
  match findSub output openTok with
  | none => false
  | some s => (findSub (output.drop s) closeTok).isSome

theorem stripAux_fix (fuel : Nat) (output : List Char)
    (h : hasCompletedBlock output = false) : stripAux fuel output = output := by
  cases fuel with
  | zero => rfl
  | succ fuel =>
    rw [stripAux]
    rw [hasCompletedBlock] at h
    cases ho : findSub output openTok with
    | none => simp [ho]
    | some s =>
      rw [ho] at h
      cases hc : findSub (output.drop s) closeTok with
      | none => simp [ho, hc, List.take_append_drop]
      | some c => simp [hc] at h

theorem strip_fix (output : List Char) (h : hasCompletedBlock output = false) :
    strip_event_tags output = output :=
  stripAux_fix _ output h

/-- Fuel-indexed list of the half-open index intervals that the strip loop
removes from the output, in absolute positions.  The recursion mirrors
`stripAux` exactly, branch by branch. -/
def blocksAux : Nat → List Char → List (Nat × Nat)
  | 0, _ => []
  | fuel + 1, output =>
    match findSub output openTok with
    | none => []
    | some startIdx =>
      let afterStart := output.drop startIdx
      match findSub afterStart closeTok with
      | none => []
      | some closeIdx =>
        (startIdx, startIdx + closeIdx + 8) ::
          (blocksAux fuel (afterStart.drop (closeIdx + 8))).map
            (fun b => (b.1 + (startIdx + closeIdx + 8), b.2 + (startIdx + closeIdx + 8)))

/-- The event blocks of an output: the intervals removed by
`strip_event_tags`. -/
def eventBlocks (output : List Char) : List (Nat × Nat) :=
  blocksAux (output.length + 1) output

/-- An occurrence of length `len` at index `i` is disjoint from every event
block of the output. -/
def outsideBlocks (output : List Char) (i len : Nat) : Prop :=
  ∀ b ∈ eventBlocks output, i + len ≤ b.1 ∨ b.2 ≤ i

instance (output : List Char) (i len : Nat) : Decidable (outsideBlocks output i len) :=
  List.decidableBAll _ _

/-- An occurrence of length `len` at index `i` lies inside a single event
block of the output. -/
def insideBlock (output : List Char) (i len : Nat) : Prop :=
  ∃ b ∈ eventBlocks output, b.1 ≤ i ∧ i + len ≤ b.2

instance (output : List Char) (i len : Nat) : Decidable (insideBlock output i len) :=
  List.decidableBEx _ _

theorem stripAux_keeps_outside (fuel : Nat) (output S : List Char) (i : Nat)
    (hocc : occursAt output S i = true)
    (hout : ∀ b ∈ blocksAux fuel output, i + S.length ≤ b.1 ∨ b.2 ≤ i) :
    containsSub (stripAux fuel output) S = true := by
  induction fuel generalizing output i with
  | zero => exact contains_of_occursAt _ _ i hocc
  | succ fuel ih =>
    cases ho : findSub output openTok with
    | none =>
      simp only [stripAux, ho]
      exact contains_of_occursAt _ _ i hocc
    | some s =>
      cases hc : findSub (output.drop s) closeTok with
      | none =>
        simp only [stripAux, ho, hc, List.take_append_drop]
        exact contains_of_occursAt _ _ i hocc
      | some c =>
        simp only [stripAux, ho, hc]
        simp only [blocksAux, ho, hc, List.mem_cons, List.mem_map] at hout
        have hhead := hout (s, s + c + 8) (Or.inl rfl)
        simp only at hhead
        rcases hhead with hleft | hright
        · -- the occurrence sits wholly before the removed block
          have h1 : occursAt (output.take s) S i = true :=
            occursAt_take output S i s hleft hocc
          have h2 := occursAt_append_left (output.take s)
            (stripAux fuel ((output.drop s).drop (c + 8))) S i h1
          exact contains_of_occursAt _ _ i h2
        · -- the occurrence sits wholly after the removed block
          have hks : s ≤ i := by omega
          have h1 : occursAt (output.drop s) S (i - s) = true :=
            occursAt_drop output S i s hks hocc
          have h2 : occursAt ((output.drop s).drop (c + 8)) S (i - s - (c + 8)) = true :=
            occursAt_drop _ S (i - s) (c + 8) (by omega) h1
          have hrest : ∀ b ∈ blocksAux fuel ((output.drop s).drop (c + 8)),
              i - s - (c + 8) + S.length ≤ b.1 ∨ b.2 ≤ i - s - (c + 8) := by
            intro b hb
            have := hout (b.1 + (s + c + 8), b.2 + (s + c + 8))
              (Or.inr ⟨b, hb, rfl⟩)
            simp only at this
            omega
          have h3 := ih _ _ h2 hrest
          rw [containsSub] at h3
          cases hf : findSub (stripAux fuel ((output.drop s).drop (c + 8))) S with
          | none => rw [hf] at h3; simp at h3
          | some j =>
            have h4 := findSub_sound _ _ j hf
            have h5 := occursAt_append_right (output.take s) _ S j h4
            exact contains_of_occursAt _ _ _ h5

/-- An `"<event "` token cannot begin inside a `"</event>"` token: the two
would disagree on a character. -/
theorem closeTok_length : closeTok.length = 8 := by decide

theorem openTok_length : openTok.length = 7 := by decide

theorem open_not_in_close (output : List Char) (p s : Nat)
    (hclose : occursAt output closeTok p = true)
    (hopen : occursAt output openTok s = true)
    (h1 : p ≤ s) (h2 : s < p + 8) : False := by
  rw [occursAt] at hclose hopen
  have hcg : ∀ j, j < 8 → output[p + j]? = closeTok[j]? := by
    intro j hj
    have := isPrefixL_getElem closeTok (output.drop p) hclose j (by rw [closeTok_length]; omega)
    rwa [List.getElem?_drop] at this
  have hog : ∀ j, j < 7 → output[s + j]? = openTok[j]? := by
    intro j hj
    have := isPrefixL_getElem openTok (output.drop s) hopen j (by rw [openTok_length]; omega)
    rwa [List.getElem?_drop] at this
  have hk8 : s - p < 8 := by omega
  have hsp : p + (s - p) = s := by omega
  rcases Nat.lt_or_ge (s - p) 1 with hk | hk
  · -- the open token would start exactly at the close token
    have e1 := hcg 1 (by omega)
    have e2 := hog 1 (by omega)
    have hps : p = s := by omega
    rw [hps] at e1
    rw [e1] at e2
    simp [closeTok, openTok, s2l] at e2
  · -- the open token would start strictly inside the close token
    have e1 := hcg (s - p) hk8
    have e2 := hog 0 (by omega)
    rw [hsp] at e1
    rw [Nat.add_zero] at e2
    rw [e1] at e2
    have hk' : s - p = 1 ∨ s - p = 2 ∨ s - p = 3 ∨ s - p = 4 ∨ s - p = 5 ∨
        s - p = 6 ∨ s - p = 7 := by omega
    rcases hk' with h | h | h | h | h | h | h <;>
      rw [h] at e2 <;> simp [closeTok, openTok, s2l] at e2

theorem stripAux_keeps_after_unclosed (fuel : Nat) (output S : List Char) (s : Nat)
    (hopen : occursAt output openTok s = true)
    (hnoclose : findSub (output.drop s) closeTok = none)
    (i : Nat) (hsi : s ≤ i) (hocc : occursAt output S i = true) :
    containsSub (stripAux fuel output) S = true := by
  induction fuel generalizing output s i with
  | zero => exact contains_of_occursAt _ _ i hocc
  | succ fuel ih =>
    cases ho : findSub output openTok with
    | none =>
      simp only [stripAux, ho]
      exact contains_of_occursAt _ _ i hocc
    | some s0 =>
      cases hc : findSub (output.drop s0) closeTok with
      | none =>
        simp only [stripAux, ho, hc, List.take_append_drop]
        exact contains_of_occursAt _ _ i hocc
      | some c0 =>
        simp only [stripAux, ho, hc]
        have hcabs : occursAt output closeTok (s0 + c0) = true :=
          occursAt_drop_abs output closeTok s0 c0 (findSub_sound _ _ c0 hc)
        have hnc : ∀ p, s ≤ p → occursAt output closeTok p = false := by
          intro p hp
          cases hcp : occursAt output closeTok p with
          | false => rfl
          | true =>
            have h1 := occursAt_drop output closeTok p s hp hcp
            have h2 := findSub_none _ _ hnoclose (p - s)
            rw [h1] at h2
            simp at h2
        have hps : s0 + c0 < s := by
          by_contra hcon
          have := hnc (s0 + c0) (by omega)
          rw [hcabs] at this
          simp at this
        have hge : s0 + c0 + 8 ≤ s := by
          by_contra hcon
          exact open_not_in_close output (s0 + c0) s hcabs hopen (by omega) (by omega)
        have hopen1 : occursAt ((output.drop s0).drop (c0 + 8)) openTok (s - s0 - (c0 + 8)) = true := by
          have h1 := occursAt_drop output openTok s s0 (by omega) hopen
          exact occursAt_drop _ openTok (s - s0) (c0 + 8) (by omega) h1
        have hocc1 : occursAt ((output.drop s0).drop (c0 + 8)) S (i - s0 - (c0 + 8)) = true := by
          have h1 := occursAt_drop output S i s0 (by omega) hocc
          exact occursAt_drop _ S (i - s0) (c0 + 8) (by omega) h1
        have hnoclose1 :
            findSub (((output.drop s0).drop (c0 + 8)).drop (s - s0 - (c0 + 8))) closeTok = none := by
          rw [List.drop_drop, List.drop_drop]
          have he : s0 + (c0 + 8 + (s - s0 - (c0 + 8))) = s := by omega
          rw [he]
          exact hnoclose
        have h3 := ih ((output.drop s0).drop (c0 + 8)) (s - s0 - (c0 + 8)) hopen1 hnoclose1
          (i - s0 - (c0 + 8)) (by omega) hocc1
        rw [containsSub] at h3
        cases hf : findSub (stripAux fuel ((output.drop s0).drop (c0 + 8))) S with
        | none => rw [hf] at h3; simp at h3
        | some j =>
          have h4 := findSub_sound _ _ j hf
          have h5 := occursAt_append_right (output.take s0) _ S j h4
          exact contains_of_occursAt _ _ _ h5

/-- C1 (amended): if the sentinel `S` occurs in the output at a position
disjoint from every stripped `<event ...>...</event>` block, then
`contains_promise` returns `true`.  The converse direction of the original
claim fails: stripping a block concatenates the text before the opening
token with the text after the closer, which can splice together a brand-new
occurrence of the sentinel, so `contains_promise` can return `true` even
when every occurrence of `S` in the raw output lies inside a block. -/
theorem C1_sentinel_outside_blocks_detected (output S : List Char) (i : Nat)
    (hocc : occursAt output S i = true)
    (hout : outsideBlocks output i S.length) :
    contains_promise output S = true :=
  stripAux_keeps_outside (output.length + 1) output S i hocc hout

/-- Witness for C1: the sentinel `"done"` occurs at index 0, before the
single event block, and `contains_promise` detects it. -/
theorem C1_sentinel_outside_blocks_detected_witness :
    occursAt (s2l "done <event t>x</event>") (s2l "done") 0 = true ∧
      outsideBlocks (s2l "done <event t>x</event>") 0 (s2l "done").length ∧
      contains_promise (s2l "done <event t>x</event>") (s2l "done") = true :=
  ⟨by decide, by decide,
    C1_sentinel_outside_blocks_detected (s2l "done <event t>x</event>") (s2l "done") 0
      (by decide) (by decide)⟩

/-- Counterexample for C1 as stated: in this output the only occurrence of
`"LOOP_COMPLETE"` lies inside the single event block, yet `contains_promise`
returns `true`, because stripping the block splices `"LO"` and
`"OP_COMPLETE"` into a new occurrence. -/
theorem C1_counterexample :
    (∀ i, i ≤ (s2l "LO<event topic=\"a\">LOOP_COMPLETE</event>OP_COMPLETE").length →
      occursAt (s2l "LO<event topic=\"a\">LOOP_COMPLETE</event>OP_COMPLETE")
        (s2l "LOOP_COMPLETE") i = true →
      insideBlock (s2l "LO<event topic=\"a\">LOOP_COMPLETE</event>OP_COMPLETE") i
        (s2l "LOOP_COMPLETE").length) ∧
    contains_promise (s2l "LO<event topic=\"a\">LOOP_COMPLETE</event>OP_COMPLETE")
      (s2l "LOOP_COMPLETE") = true := by
  decide

/-- C2 (amended): a trailing `<event ` block with no `</event>` closer is
NOT stripped — `strip_event_tags` keeps the rest of the output verbatim in
that case — so a sentinel occurring at or after such an unclosed opening
token DOES make `contains_promise` return `true`. -/
theorem C2_unclosed_trailing_block_kept (output S : List Char) (s : Nat)
    (hopen : occursAt output openTok s = true)
    (hnoclose : findSub (output.drop s) closeTok = none)
    (i : Nat) (hsi : s ≤ i) (hocc : occursAt output S i = true) :
    contains_promise output S = true :=
  stripAux_keeps_after_unclosed (output.length + 1) output S s hopen hnoclose i hsi hocc

/-- Witness for C2: the opening token at index 4 has no closer, and the
sentinel `"SENT"` inside that unclosed block is detected. -/
theorem C2_unclosed_trailing_block_kept_witness :
    occursAt (s2l "abc <event oops SENT") openTok 4 = true ∧
      findSub ((s2l "abc <event oops SENT").drop 4) closeTok = none ∧
      contains_promise (s2l "abc <event oops SENT") (s2l "SENT") = true :=
  ⟨by decide, by decide,
    C2_unclosed_trailing_block_kept (s2l "abc <event oops SENT") (s2l "SENT") 4
      (by decide) (by decide) 16 (by decide) (by decide)⟩

/-- Counterexample for C2 as stated: the output consists of a single
trailing unclosed `<event ` block containing the sentinel; the claim says
the block is stripped and the sentinel is not detected, but the code keeps
the unclosed block and `contains_promise` returns `true`. -/
theorem C2_counterexample :
    occursAt (s2l "<event topic=\"x\">SENTINEL") openTok 0 = true ∧
      findSub ((s2l "<event topic=\"x\">SENTINEL").drop 0) closeTok = none ∧
      contains_promise (s2l "<event topic=\"x\">SENTINEL") (s2l "SENTINEL") = true := by
  decide

/-- C8 (amended): `strip_event_tags` is idempotent on every output whose
stripped form contains no completed event block (no `<event ` token with a
later `</event>`).  In general idempotence fails: stripping can splice the
text around a block into a brand-new completed block that a second pass
removes. -/
theorem C8_strip_idempotent_no_new_block (output : List Char)
    (h : hasCompletedBlock (strip_event_tags output) = false) :
    strip_event_tags (strip_event_tags output) = strip_event_tags output :=
  strip_fix (strip_event_tags output) h

/-- Witness for C8: stripping this output yields `"xz"`, which has no event
token, so a second strip changes nothing. -/
theorem C8_strip_idempotent_no_new_block_witness :
    hasCompletedBlock (strip_event_tags (s2l "x<event t>y</event>z")) = false ∧
      strip_event_tags (strip_event_tags (s2l "x<event t>y</event>z")) =
        strip_event_tags (s2l "x<event t>y</event>z") :=
  ⟨by decide, C8_strip_idempotent_no_new_block (s2l "x<event t>y</event>z") (by decide)⟩

/-- Counterexample for C8 as stated: stripping this output once splices the
surrounding text into a new `<event ...</event>` block, so a second strip
removes more and idempotence fails. -/
theorem C8_counterexample :
    strip_event_tags (strip_event_tags (s2l "<even<event a</event>t b</event>c")) ≠
      strip_event_tags (s2l "<even<event a</event>t b</event>c") := by
  decide

/-- Evidence of backpressure checks for `build.done` events, mirroring the
`BackpressureEvidence` struct. -/
structure BackpressureEvidence where
  tests_passed : Bool
  lint_passed : Bool
  typecheck_passed : Bool
deriving DecidableEq

/-- Embedding of `BackpressureEvidence::all_passed`. -/
def BackpressureEvidence.all_passed (e : BackpressureEvidence) : Bool :=
  e.tests_passed && e.lint_passed && e.typecheck_passed

/-- Embedding of `EventParser::parse_backpressure_evidence`: probe the
payload for the three `name: pass` substrings, and return evidence only if
at least one `name:` token is mentioned. -/
def parse_backpressure_evidence (payload : List Char) : Option BackpressureEvidence :=
  let tests_passed := containsSub payload (s2l "tests: pass")
  let lint_passed := containsSub payload (s2l "lint: pass")
  let typecheck_passed := containsSub payload (s2l "typecheck: pass")
  if containsSub payload (s2l "tests:") || containsSub payload (s2l "lint:") ||
      containsSub payload (s2l "typecheck:") then
    some ⟨tests_passed, lint_passed, typecheck_passed⟩
  else
    none

/-- C3: `parse_backpressure_evidence` returns `none` exactly when none of
the tokens `tests:`, `lint:`, `typecheck:` occurs in the payload; otherwise
it returns evidence whose three booleans record the presence of the
corresponding `name: pass` substring, and `all_passed` holds exactly when
all three booleans are true. -/
theorem C3_backpressure_evidence_parsing (p : List Char) :
    (parse_backpressure_evidence p = none ↔
      containsSub p (s2l "tests:") = false ∧ containsSub p (s2l "lint:") = false ∧
        containsSub p (s2l "typecheck:") = false) ∧
    ∀ ev, parse_backpressure_evidence p = some ev →
      ev.tests_passed = containsSub p (s2l "tests: pass") ∧
      ev.lint_passed = containsSub p (s2l "lint: pass") ∧
      ev.typecheck_passed = containsSub p (s2l "typecheck: pass") ∧
      (ev.all_passed = true ↔
        ev.tests_passed = true ∧ ev.lint_passed = true ∧ ev.typecheck_passed = true) := by
  constructor
  · rw [parse_backpressure_evidence]
    split
    · rename_i hcond
      simp only [Bool.or_eq_true] at hcond
      constructor
      · intro h
        simp at h
      · intro h
        rcases hcond with (h1 | h1) | h1 <;> simp [h.1, h.2.1, h.2.2] at h1
    · rename_i hcond
      simp only [Bool.or_eq_true, not_or] at hcond
      constructor
      · intro _
        exact ⟨by simpa using hcond.1.1, by simpa using hcond.1.2, by simpa using hcond.2⟩
      · intro _
        rfl
  · intro ev hev
    rw [parse_backpressure_evidence] at hev
    split at hev
    · simp only [Option.some.injEq] at hev
      subst hev
      refine ⟨rfl, rfl, rfl, ?_⟩
      simp [BackpressureEvidence.all_passed, Bool.and_eq_true, and_assoc]
    · simp at hev

/-- Witness for C3: a payload where only the tests check is mentioned and
passes. -/
theorem C3_backpressure_evidence_parsing_witness :
    parse_backpressure_evidence (s2l "tests: pass") =
        some ⟨true, false, false⟩ ∧
      (true : Bool) = containsSub (s2l "tests: pass") (s2l "tests: pass") ∧
      (false : Bool) = containsSub (s2l "tests: pass") (s2l "lint: pass") ∧
      (false : Bool) = containsSub (s2l "tests: pass") (s2l "typecheck: pass") ∧
      (BackpressureEvidence.all_passed ⟨true, false, false⟩ = true ↔
        (true : Bool) = true ∧ (false : Bool) = true ∧ (false : Bool) = true) :=
  ⟨by decide,
    (C3_backpressure_evidence_parsing (s2l "tests: pass")).2 ⟨true, false, false⟩ (by decide)⟩

/-- The routing wildcard segment `"*"`. -/
def star : List Char :=
  s2l "*"

/-- Embedding of Rust's `str::split('.')` as used by `Topic::matches`:
splits into (possibly empty) dot-separated segments. -/
def splitDot : List Char → List (List Char)
  | [] => [[]]
  | c :: rest =>
    if c = '.' then [] :: splitDot rest
    else
      match splitDot rest with
      | [] => [[c]]
      | h :: t => (c :: h) :: t

/-- Embedding of `Topic::matches`: a single `*` matches everything; an
exact match succeeds; otherwise both topics are split on `.`, segment
counts must agree, and each pattern segment must be `*` or equal to the
corresponding target segment. -/
def Topic.matches (pattern target : List Char) : Bool :=
  if pattern = star then true
  else if pattern = target then true
  else
    let pattern_parts := splitDot pattern
    let target_parts := splitDot target
    if pattern_parts.length ≠ target_parts.length then false
    else (pattern_parts.zip target_parts).all fun q => q.1 == star || q.1 == q.2

example : Topic.matches (s2l "impl.*") (s2l "impl.done") = true := by decide
example : Topic.matches (s2l "*.done") (s2l "impl.done") = true := by decide
example : Topic.matches (s2l "impl.*") (s2l "impl.sub.done") = false := by decide
example : Topic.matches (s2l "*") (s2l "anything") = true := by decide

/-- C4: `Topic::matches` succeeds exactly when the pattern is the single
wildcard, or the pattern equals the target, or both split into equally many
dot-segments with every pattern segment a wildcard or equal to its target
segment; consequently the global wildcard matches every topic and any match
forces the wildcard pattern or equal segment counts. -/
theorem C4_topic_matches_characterization (p t : List Char) :
    (Topic.matches p t = true ↔
      p = star ∨ p = t ∨
        ((splitDot p).length = (splitDot t).length ∧
          ∀ q ∈ (splitDot p).zip (splitDot t), q.1 = star ∨ q.1 = q.2)) ∧
    Topic.matches star t = true ∧
    (Topic.matches p t = true → p = star ∨ (splitDot p).length = (splitDot t).length) := by
  have hchar : Topic.matches p t = true ↔
      p = star ∨ p = t ∨
        ((splitDot p).length = (splitDot t).length ∧
          ∀ q ∈ (splitDot p).zip (splitDot t), q.1 = star ∨ q.1 = q.2) := by
    rw [Topic.matches]
    by_cases hp : p = star
    · simp [hp]
    · by_cases hpt : p = t
      · simp [hp, hpt]
      · simp only [if_neg hp, if_neg hpt]
        by_cases hl : (splitDot p).length = (splitDot t).length
        · simp only [hl, ne_eq, not_true_eq_false, if_neg, ite_false, List.all_eq_true,
            Bool.or_eq_true, beq_iff_eq]
          simp [hp, hpt, hl]
        · simp [hl, hp, hpt]
  refine ⟨hchar, ?_, ?_⟩
  · simp [Topic.matches]
  · intro h
    rcases hchar.mp h with h1 | h1 | h1
    · exact Or.inl h1
    · subst h1
      exact Or.inr rfl
    · exact Or.inr h1.1

/-- Witness for C4: the pattern `impl.*` matches the topic `impl.done`. -/
theorem C4_topic_matches_characterization_witness :
    (Topic.matches (s2l "impl.*") (s2l "impl.done") = true ↔
      s2l "impl.*" = star ∨ s2l "impl.*" = s2l "impl.done" ∨
        ((splitDot (s2l "impl.*")).length = (splitDot (s2l "impl.done")).length ∧
          ∀ q ∈ (splitDot (s2l "impl.*")).zip (splitDot (s2l "impl.done")),
            q.1 = star ∨ q.1 = q.2)) ∧
    Topic.matches star (s2l "impl.done") = true ∧
    (Topic.matches (s2l "impl.*") (s2l "impl.done") = true →
      s2l "impl.*" = star ∨ (splitDot (s2l "impl.*")).length = (splitDot (s2l "impl.done")).length) :=
  C4_topic_matches_characterization (s2l "impl.*") (s2l "impl.done")

/-- Action returned by the double-Ctrl+C state machine. -/
inductive CtrlCAction where
  | ForwardAndStartWindow
  | Terminate
deriving DecidableEq

/-- State machine for double Ctrl+C detection.  `Instant`s are modelled as
milliseconds on a monotone clock; `Instant::duration_since` is truncated
subtraction. -/
structure CtrlCState where
  first_press : Option Nat
  window : Nat
deriving DecidableEq

/-- Embedding of `CtrlCState::new`: no press recorded, one-second
window. -/
def CtrlCState.new : CtrlCState :=
  { first_press := none, window := 1000 }

/-- Embedding of `CtrlCState::handle_ctrl_c`: a second press strictly
within the window terminates and clears the stored press; otherwise the
press is recorded and forwarded. -/
def CtrlCState.handle_ctrl_c (st : CtrlCState) (now : Nat) : CtrlCState × CtrlCAction :=
  match st.first_press with
  | some first =>
    if now - first < st.window then
      ({ st with first_press := none }, CtrlCAction.Terminate)
    else
      ({ st with first_press := some now }, CtrlCAction.ForwardAndStartWindow)
  | none => ({ st with first_press := some now }, CtrlCAction.ForwardAndStartWindow)

/-- C5: starting from the initial state, two presses less than one second
apart yield `ForwardAndStartWindow` then `Terminate`, and the `Terminate`
clears the stored first press; two presses more than one second apart yield
two `ForwardAndStartWindow`s. -/
theorem C5_double_ctrl_c_state_machine (t1 t2 : Nat) (h12 : t1 ≤ t2) :
    (t2 - t1 < 1000 →
      (CtrlCState.new.handle_ctrl_c t1).2 = CtrlCAction.ForwardAndStartWindow ∧
      ((CtrlCState.new.handle_ctrl_c t1).1.handle_ctrl_c t2).2 = CtrlCAction.Terminate ∧
      ((CtrlCState.new.handle_ctrl_c t1).1.handle_ctrl_c t2).1.first_press = none) ∧
    (1000 < t2 - t1 →
      (CtrlCState.new.handle_ctrl_c t1).2 = CtrlCAction.ForwardAndStartWindow ∧
      ((CtrlCState.new.handle_ctrl_c t1).1.handle_ctrl_c t2).2 =
        CtrlCAction.ForwardAndStartWindow) := by
  constructor
  · intro h
    refine ⟨rfl, ?_, ?_⟩ <;>
      simp [CtrlCState.new, CtrlCState.handle_ctrl_c, if_pos h]
  · intro h
    refine ⟨rfl, ?_⟩
    simp only [CtrlCState.new, CtrlCState.handle_ctrl_c]
    rw [if_neg (by omega)]

/-- Witness for C5: presses at 0 ms and 500 ms terminate; presses at 0 ms
and 2000 ms both forward. -/
theorem C5_double_ctrl_c_state_machine_witness :
    ((CtrlCState.new.handle_ctrl_c 0).2 = CtrlCAction.ForwardAndStartWindow ∧
      ((CtrlCState.new.handle_ctrl_c 0).1.handle_ctrl_c 500).2 = CtrlCAction.Terminate ∧
      ((CtrlCState.new.handle_ctrl_c 0).1.handle_ctrl_c 500).1.first_press = none) ∧
    ((CtrlCState.new.handle_ctrl_c 0).2 = CtrlCAction.ForwardAndStartWindow ∧
      ((CtrlCState.new.handle_ctrl_c 0).1.handle_ctrl_c 2000).2 =
        CtrlCAction.ForwardAndStartWindow) :=
  ⟨(C5_double_ctrl_c_state_machine 0 500 (by decide)).1 (by decide),
    (C5_double_ctrl_c_state_machine 0 2000 (by decide)).2 (by decide)⟩

/-- How the PTY process was terminated, mirroring `TerminationType`. -/
inductive TerminationType where
  | Natural
  | IdleTimeout
  | UserInterrupt
  | ForceKill
deriving DecidableEq

/-- Recognizer for the idle-timeout termination reason. -/
def TerminationType.isIdleTimeout : TerminationType → Bool
  | TerminationType.IdleTimeout => true
  | _ => false

/-- Embedding of the timeout setup shared by `run_observe` and
`run_interactive`: `idle_timeout_secs` of 0 yields no timeout, otherwise a
duration in milliseconds. -/
def mkIdleTimeout (idle_timeout_secs : Nat) : Option Nat :=
  if idle_timeout_secs > 0 then some (idle_timeout_secs * 1000) else none

/-- One observed iteration of the executor's main loop.  `idlePoll` carries
the milliseconds elapsed since the last recorded activity when the loop
checks the idle timeout; the other constructors abstract the remaining exit
paths of `run_observe` and `run_interactive` (observe-mode traces simply
never contain `doubleCtrlC` or `forceKillRequest`). -/
inductive LoopEvent where
  | childExited
  | readEof
  | readData
  | doubleCtrlC
  | forceKillRequest
  | idlePoll (elapsedMillis : Nat)

/-- The termination reason produced by the executor's main loop on a trace
of iterations: the idle-timeout branch fires only when a timeout is
configured and the elapsed time strictly exceeds it, exactly as in the
source's `if let Some(timeout_duration) = timeout` check. -/
def runLoopTermination (idle_timeout_secs : Nat) : List LoopEvent → TerminationType
  | [] => TerminationType.Natural
  | e :: rest =>
    match e with
    | LoopEvent.childExited => TerminationType.Natural
    | LoopEvent.readEof => TerminationType.Natural
    | LoopEvent.readData => runLoopTermination idle_timeout_secs rest
    | LoopEvent.doubleCtrlC => TerminationType.UserInterrupt
    | LoopEvent.forceKillRequest => TerminationType.ForceKill
    | LoopEvent.idlePoll elapsed =>
      match mkIdleTimeout idle_timeout_secs with
      | some t =>
        if elapsed > t then TerminationType.IdleTimeout
        else runLoopTermination idle_timeout_secs rest
      | none => runLoopTermination idle_timeout_secs rest

/-- C7: with `idle_timeout_secs = 0` no trace of loop iterations ever
terminates with reason `IdleTimeout`, no matter how long the child produces
no output. -/
theorem C7_idle_timeout_zero_disables (events : List LoopEvent) :
    (runLoopTermination 0 events).isIdleTimeout = false := by
  induction events with
  | nil => rfl
  | cons e rest ih =>
    cases e with
    | childExited => rfl
    | readEof => rfl
    | readData => exact ih
    | doubleCtrlC => rfl
    | forceKillRequest => rfl
    | idlePoll elapsed => exact ih

example : (runLoopTermination 0 [LoopEvent.idlePoll 999999999]).isIdleTimeout = false := by
  decide

example : (runLoopTermination 30 [LoopEvent.idlePoll 30001]).isIdleTimeout = true := by
  decide

/-- Embedding of Rust's `Vec::join(sep)` on string lists. -/
def joinSep (sep : List Char) : List (List Char) → List Char
  | [] => []
  | [x] => x
  | x :: xs => x ++ sep ++ joinSep sep xs

/-- Rendering of a natural number, as Rust's `Display` for integers. -/
def natChars (n : Nat) : List Char :=
  (Nat.repr n).data

/-- Core configuration injected into every prompt, mirroring
`CoreConfig`. -/
structure CoreConfig where
  scratchpad : List Char
  specs_dir : List Char
  guardrails : List (List Char)

/-- Information about a hat for prompt generation, mirroring `HatInfo`. -/
structure HatInfo where
  name : List Char
  subscribes_to : List (List Char)
  publishes : List (List Char)

/-- Hat topology for multi-hat mode prompt generation, mirroring
`HatTopology`. -/
structure HatTopology where
  hats : List HatInfo

/-- Hatless Ralph, the constant coordinator, mirroring `HatlessRalph`. -/
structure HatlessRalph where
  completion_promise : List Char
  core : CoreConfig
  hat_topology : Option HatTopology

/-- Embedding of `HatlessRalph::core_prompt`: identity, orientation,
scratchpad and guardrails sections (guardrails numbered from 999). -/
def HatlessRalph.core_prompt (r : HatlessRalph) : List Char :=
  let guardrails := joinSep (s2l "\n")
    (r.core.guardrails.enum.map (fun gi => natChars (999 + gi.1) ++ s2l ". " ++ gi.2))
  s2l "I'm Ralph. Fresh context each iteration.\n\n### 0a. ORIENTATION\nStudy `" ++
    r.core.specs_dir ++
    s2l "` to understand requirements.\nDon't assume features aren't implementedâ€”search first.\n\n### 0b. SCRATCHPAD\nStudy `" ++
    r.core.scratchpad ++
    s2l "`. It's shared state. It's memory.\n\nTask markers:\n- `[ ]` pending\n- `[x]` done\n- `[~]` cancelled (with reason)\n\n### GUARDRAILS\n" ++
    guardrails ++ s2l "\n\n"

/-- Embedding of `HatlessRalph::workflow_section`. -/
def HatlessRalph.workflow_section (r : HatlessRalph) : List Char :=
  s2l "## WORKFLOW\n\n### 1. GAP ANALYSIS\nCompare specs against codebase. Use parallel subagents (up to 10) for searches.\n\n### 2. PLAN\nUpdate `" ++
    r.core.scratchpad ++
    s2l "` with prioritized tasks.\n\n### 3. IMPLEMENT\nPick ONE task. Only 1 subagent for build/tests.\n\n### 4. COMMIT\nCapture the why, not just the what. Mark `[x]` in scratchpad.\n\n### 5. REPEAT\nUntil all tasks `[x]` or `[~]`.\n\n"

/-- Embedding of `HatlessRalph::hats_section`: a markdown table of hats
with their triggers and publications. -/
def HatlessRalph.hats_section (topology : HatTopology) : List Char :=
  s2l "## HATS\n\nDelegate via events.\n\n| Hat | Triggers On | Publishes |\n|-----|-------------|----------|\n" ++
    (topology.hats.map (fun hat =>
      s2l "| " ++ hat.name ++ s2l " | " ++ joinSep (s2l ", ") hat.subscribes_to ++
        s2l " | " ++ joinSep (s2l ", ") hat.publishes ++ s2l " |\n")).flatten ++
    s2l "\n"

/-- Embedding of `HatlessRalph::event_writing_section`. -/
def HatlessRalph.event_writing_section : List Char :=
  s2l "## EVENT WRITING\n\nWrite events to `.agent/events.jsonl` as:\n\x7b\"topic\": \"build.task\", \"payload\": \"...\", \"ts\": \"2026-01-14T12:00:00Z\"\x7d\n\n"

/-- Embedding of `HatlessRalph::done_section`. -/
def HatlessRalph.done_section (r : HatlessRalph) : List Char :=
  s2l "## DONE\n\nOutput " ++ r.completion_promise ++ s2l " when all tasks complete.\n"

/-- Embedding of `HatlessRalph::build_prompt`: concatenates the core,
workflow, optional hats, event-writing and done sections.  The incoming
`_context` argument is ignored, exactly as in the source. -/
def HatlessRalph.build_prompt (r : HatlessRalph) (_context : List Char) : List Char :=
  r.core_prompt ++ r.workflow_section ++
    (match r.hat_topology with
     | some topology => HatlessRalph.hats_section topology
     | none => []) ++
    HatlessRalph.event_writing_section ++ r.done_section

/-- C9: the hatless prompt is completely independent of the incoming-event
context argument: for any two context strings the built prompts are
identical, so the dequeued event is never embedded into the prompt text. -/
theorem C9_hatless_prompt_context_independent (r : HatlessRalph) (c1 c2 : List Char) :
    r.build_prompt c1 = r.build_prompt c2 :=
  rfl

theorem occursAt_self (l : List Char) : occursAt l l 0 = true := by
  rw [occursAt, List.drop_zero, isPrefixL_iff]
  exact ⟨[], (List.append_nil l).symm⟩

theorem containsSub_self (l : List Char) : containsSub l l = true :=
  contains_of_occursAt l l 0 (occursAt_self l)

theorem containsSub_append_left (a b pat : List Char) (h : containsSub a pat = true) :
    containsSub (a ++ b) pat = true := by
  rw [containsSub] at h
  cases hf : findSub a pat with
  | none => rw [hf] at h; simp at h
  | some j =>
    exact contains_of_occursAt _ _ j (occursAt_append_left a b pat j (findSub_sound _ _ j hf))

theorem containsSub_append_right (a b pat : List Char) (h : containsSub b pat = true) :
    containsSub (a ++ b) pat = true := by
  rw [containsSub] at h
  cases hf : findSub b pat with
  | none => rw [hf] at h; simp at h
  | some j =>
    exact contains_of_occursAt _ _ _ (occursAt_append_right a b pat j (findSub_sound _ _ j hf))

theorem containsSub_joinSep (sep : List Char) (ts : List (List Char)) (t : List Char)
    (ht : t ∈ ts) : containsSub (joinSep sep ts) t = true := by
  induction ts with
  | nil => cases ht
  | cons x xs ih =>
    cases xs with
    | nil =>
      have hx : t = x := by simpa using ht
      subst hx
      simpa [joinSep] using containsSub_self t
    | cons y ys =>
      rcases List.mem_cons.mp ht with h1 | h1
      · subst h1
        show containsSub (t ++ sep ++ joinSep sep (y :: ys)) t = true
        exact containsSub_append_left _ _ _ (containsSub_append_left _ _ _ (containsSub_self t))
      · show containsSub (x ++ sep ++ joinSep sep (y :: ys)) t = true
        exact containsSub_append_right _ _ _ (ih h1)

/-- Event metadata for deriving instructions from pub/sub contracts,
mirroring `EventMetadata`. -/
structure EventMetadata where
  on_trigger : List Char
  on_publish : List Char

/-- A configured hat, mirroring the fields of `ralph_proto::Hat` used by
the instruction builder. -/
structure Hat where
  name : List Char
  instructions : List Char
  subscriptions : List (List Char)
  publishes : List (List Char)

/-- Builder of the prepended instructions for agent prompts, mirroring
`InstructionBuilder`; the event-metadata `HashMap` is modelled as an
association list. -/
structure InstructionBuilder where
  completion_promise : List Char
  core : CoreConfig
  events : List (List Char × EventMetadata)

/-- Lookup in the event-metadata map, mirroring `HashMap::get`. -/
def lookupEvent (events : List (List Char × EventMetadata)) (k : List Char) :
    Option EventMetadata :=
  match events.find? (fun p => p.1 == k) with
  | some p => some p.2
  | none => none

/-- Embedding of `InstructionBuilder::build_core_behaviors`. -/
def build_core_behaviors (b : InstructionBuilder) : List Char :=
  let guardrails := joinSep (s2l "\n") (b.core.guardrails.map (fun g => s2l "- " ++ g))
  s2l "## CORE BEHAVIORS\n**Scratchpad:** `" ++ b.core.scratchpad ++
    s2l "` is shared state. Read it. Update it.\n**Specs:** `" ++ b.core.specs_dir ++
    s2l "` is the source of truth. Implementations must match.\n\n**IMPORTANT**: Less is more, do the smallest, atomic task possible. Leave work for future workers.\n\n### Guardrails\n" ++
    guardrails ++ s2l "\n"

/-- Built-in default behavior for well-known trigger events. -/
def defaultTriggerBehavior (t : List Char) : Option (List Char) :=
  if t = s2l "task.start" ∨ t = s2l "task.resume" then
    some (s2l "Analyze the task and create a plan in the scratchpad.")
  else if t = s2l "build.done" then
    some (s2l "Review the completed work and decide next steps.")
  else if t = s2l "build.blocked" then
    some (s2l "Analyze the blocker and decide how to unblock (simplify task, gather info, or escalate).")
  else if t = s2l "build.task" then
    some (s2l "Implement the assigned task. Follow existing patterns. Run backpressure (tests/checks). Commit when done.")
  else if t = s2l "review.request" then
    some (s2l "Review the recent changes for correctness, tests, patterns, errors, and security.")
  else if t = s2l "review.approved" then
    some (s2l "Mark the task complete `[x]` and proceed to next task.")
  else if t = s2l "review.changes_requested" then
    some (s2l "Add fix tasks to scratchpad and dispatch.")
  else
    none

/-- Built-in default behavior for well-known published events. -/
def defaultPublishBehavior (t : List Char) : Option (List Char) :=
  if t = s2l "build.task" then
    some (s2l "Dispatch ONE AT A TIME for pending `[ ]` tasks.")
  else if t = s2l "build.done" then
    some (s2l "When implementation is finished and tests pass.")
  else if t = s2l "build.blocked" then
    some (s2l "When stuck - include what you tried and why it failed.")
  else if t = s2l "review.request" then
    some (s2l "After build completion, before marking done.")
  else if t = s2l "review.approved" then
    some (s2l "If changes look good and meet requirements.")
  else if t = s2l "review.changes_requested" then
    some (s2l "If issues found - include specific feedback.")
  else
    none

/-- The behavior line derived for one trigger: event metadata first, then
built-in defaults. -/
def triggerLine (b : InstructionBuilder) (t : List Char) : Option (List Char) :=
  match lookupEvent b.events t with
  | some meta =>
    if meta.on_trigger ≠ [] then some (s2l "**On `" ++ t ++ s2l "`:** " ++ meta.on_trigger)
    else (defaultTriggerBehavior t).map (fun beh => s2l "**On `" ++ t ++ s2l "`:** " ++ beh)
  | none => (defaultTriggerBehavior t).map (fun beh => s2l "**On `" ++ t ++ s2l "`:** " ++ beh)

/-- The behavior line derived for one published event. -/
def publishLine (b : InstructionBuilder) (t : List Char) : Option (List Char) :=
  match lookupEvent b.events t with
  | some meta =>
    if meta.on_publish ≠ [] then some (s2l "**Publish `" ++ t ++ s2l "`:** " ++ meta.on_publish)
    else (defaultPublishBehavior t).map (fun beh => s2l "**Publish `" ++ t ++ s2l "`:** " ++ beh)
  | none => (defaultPublishBehavior t).map (fun beh => s2l "**Publish `" ++ t ++ s2l "`:** " ++ beh)

/-- Embedding of `InstructionBuilder::derive_instructions_from_contract`. -/
def derive_instructions_from_contract (b : InstructionBuilder) (hat : Hat) : List Char :=
  let behaviors :=
    hat.subscriptions.filterMap (triggerLine b) ++
      hat.publishes.filterMap (publishLine b) ++
      (if hat.publishes = [] then []
       else [s2l "**IMPORTANT:** Every iteration MUST publish one of: `" ++
         joinSep (s2l "`, `") hat.publishes ++ s2l "` or the loop will terminate."])
  if behaviors = [] then s2l "Follow the incoming event instructions."
  else s2l "### Derived Behaviors\n\n" ++ joinSep (s2l "\n\n") behaviors

/-- The `publish_topics` component of `build_custom_hat`. -/
def publishTopicsLine (hat : Hat) : List Char :=
  if hat.publishes = [] then []
  else s2l "You publish to: " ++ joinSep (s2l ", ") hat.publishes

/-- The `must_publish` component of `build_custom_hat`: empty when the hat
publishes nothing, otherwise the explicit must-publish clause listing every
publishable topic. -/
def mustPublishClause (hat : Hat) : List Char :=
  if hat.publishes = [] then []
  else s2l "\n\n**You MUST publish one of these events based on your task results:** `" ++
    joinSep (s2l "`, `") hat.publishes ++
    s2l "`\nFailure to publish will terminate the loop."

/-- Embedding of `InstructionBuilder::build_custom_hat`. -/
def build_custom_hat (b : InstructionBuilder) (hat : Hat) (events_context : List Char) :
    List Char :=
  let core_behaviors := build_core_behaviors b
  let role_instructions :=
    if hat.instructions = [] then derive_instructions_from_contract b hat
    else hat.instructions
  s2l "You are " ++ hat.name ++ s2l ". Fresh context each iteration.\n\n" ++ core_behaviors ++
    s2l "\n\n## YOUR ROLE\n\n" ++ role_instructions ++
    s2l "\n\n## THE RULES\n\n1. **One task, then exit.** The loop continues.\n\n## EVENTS\n\nCommunicate via: `<event topic=\"...\">message</event>`\n" ++
    publishTopicsLine hat ++ mustPublishClause hat ++
    s2l "\n\n## COMPLETION\n\nOnly Coordinator outputs: " ++ b.completion_promise ++
    s2l "\n\n---\nINCOMING:\n" ++ events_context

theorem mustPublishClause_contains_clause (hat : Hat) (hne : hat.publishes ≠ []) :
    containsSub (mustPublishClause hat) (s2l "You MUST publish one of these events") = true := by
  rw [mustPublishClause, if_neg hne]
  apply containsSub_append_left
  apply containsSub_append_left
  exact contains_of_occursAt _ _ 4 (by decide)

theorem mustPublishClause_contains_topic (hat : Hat) (hne : hat.publishes ≠ [])
    (t : List Char) (ht : t ∈ hat.publishes) :
    containsSub (mustPublishClause hat) t = true := by
  rw [mustPublishClause, if_neg hne]
  apply containsSub_append_left
  apply containsSub_append_right
  exact containsSub_joinSep _ _ _ ht

/-- C6 (amended): whenever a hat declares a non-empty `publishes` list the
prompt built by `build_custom_hat` contains the explicit "You MUST publish
one of these events" clause and every publishable topic, regardless of
whether the hat has explicit instructions; when `publishes` is empty the
injected must-publish component is empty.  The original claim's stronger
reading — that the full prompt then contains no such clause as a substring —
fails, because the hat's own instructions or the events context may
themselves contain the phrase. -/
theorem C6_must_publish_clause_in_custom_hat (b : InstructionBuilder) (hat : Hat)
    (ctx : List Char) :
    (hat.publishes ≠ [] →
      containsSub (build_custom_hat b hat ctx)
          (s2l "You MUST publish one of these events") = true ∧
      ∀ t ∈ hat.publishes, containsSub (build_custom_hat b hat ctx) t = true) ∧
    (hat.publishes = [] → mustPublishClause hat = []) := by
  constructor
  · intro hne
    constructor
    · simp only [build_custom_hat]
      apply containsSub_append_left
      apply containsSub_append_left
      apply containsSub_append_left
      apply containsSub_append_left
      apply containsSub_append_right
      exact mustPublishClause_contains_clause hat hne
    · intro t ht
      simp only [build_custom_hat]
      apply containsSub_append_left
      apply containsSub_append_left
      apply containsSub_append_left
      apply containsSub_append_left
      apply containsSub_append_right
      exact mustPublishClause_contains_topic hat hne t ht
  · intro hempty
    rw [mustPublishClause, if_pos hempty]

/-- Reviewer hat used to witness C6. -/
def reviewerHat : Hat :=
  { name := s2l "Code Reviewer",
    instructions := s2l "Review PRs for quality and correctness.",
    subscriptions := [],
    publishes := [s2l "review.approved", s2l "review.changes_requested"] }

/-- Instruction builder used in the C6 witness and counterexample. -/
def demoBuilder : InstructionBuilder :=
  { completion_promise := s2l "DONE",
    core := { scratchpad := s2l ".agent/scratchpad.md",
              specs_dir := s2l "./specs/",
              guardrails := [] },
    events := [] }

/-- Witness for C6: the reviewer hat publishes two topics, and its prompt
contains the must-publish clause and both topics. -/
theorem C6_must_publish_clause_in_custom_hat_witness :
    containsSub (build_custom_hat demoBuilder reviewerHat (s2l "PR ready"))
        (s2l "You MUST publish one of these events") = true ∧
      ∀ t ∈ reviewerHat.publishes,
        containsSub (build_custom_hat demoBuilder reviewerHat (s2l "PR ready")) t = true :=
  (C6_must_publish_clause_in_custom_hat demoBuilder reviewerHat (s2l "PR ready")).1
    (by decide)

/-- Hat with no publishes whose own instructions happen to contain the
must-publish phrase, used to refute the substring reading of C6. -/
def echoHat : Hat :=
  { name := s2l "observer",
    instructions := s2l "You MUST publish one of these events",
    subscriptions := [],
    publishes := [] }

/-- Counterexample for C6 as stated: this hat declares no publishes, yet
its prompt does contain the phrase "You MUST publish one of these events"
as a substring, because the hat's own instructions contain it. -/
theorem C6_counterexample :
    echoHat.publishes = [] ∧
      containsSub (build_custom_hat demoBuilder echoHat (s2l ""))
          (s2l "You MUST publish one of these events") = true := by
  refine ⟨rfl, ?_⟩
  simp only [build_custom_hat]
  apply containsSub_append_left
  apply containsSub_append_left
  apply containsSub_append_left
  apply containsSub_append_left
  apply containsSub_append_left
  apply containsSub_append_left
  apply containsSub_append_left
  apply containsSub_append_right
  rw [if_neg (by decide : ¬echoHat.instructions = [])]
  exact containsSub_self _

/-- Embedding of Rust's `str::trim`: drop whitespace from both ends. -/
def trimChars (l : List Char) : List Char :=
  ((l.dropWhile Char.isWhitespace).reverse.dropWhile Char.isWhitespace).reverse

/-- A parsed event, mirroring the fields of `ralph_proto::Event` set by the
parser. -/
structure Event where
  topic : List Char
  payload : List Char
  source : Option (List Char)
  target : Option (List Char)
deriving DecidableEq

/-- Embedding of `EventParser::extract_attr`: a plain substring probe that
finds the first occurrence of `attr="` in the tag and returns the text up
to the next `"`. -/
def extract_attr (tag attr : List Char) : Option (List Char) :=
  let pattern := attr ++ s2l "=\""
  match findSub tag pattern with
  | none => none
  | some start =>
    let rest := tag.drop (start + pattern.length)
    match findSub rest (s2l "\"") with
    | none => none
    | some stop => some (rest.take stop)

/-- Fuel-indexed embedding of the loop in `EventParser::parse`.  Each
iteration consumes at least seven characters of the remaining output, so
fuel `|output| + 1` always suffices. -/
def parseAux : Nat → Option (List Char) → List Char → List Event
  | 0, _, _ => []
  | fuel + 1, source, remaining =>
    match findSub remaining openTok with
    | none => []
    | some start_idx =>
      let after_start := remaining.drop start_idx
      match findSub after_start (s2l ">") with
      | none => parseAux fuel source (remaining.drop (start_idx + 7))
      | some tag_end =>
        let opening_tag := after_start.take (tag_end + 1)
        match extract_attr opening_tag (s2l "topic") with
        | none => parseAux fuel source (remaining.drop (start_idx + tag_end + 1))
        | some topic =>
          let content_start := after_start.drop (tag_end + 1)
          match findSub content_start closeTok with
          | none => parseAux fuel source (remaining.drop (start_idx + tag_end + 1))
          | some close_idx =>
            { topic := topic,
              payload := trimChars (content_start.take close_idx),
              source := source,
              target := extract_attr opening_tag (s2l "target") } ::
              parseAux fuel source (remaining.drop (start_idx + tag_end + 1 + close_idx + 8))

/-- Embedding of `EventParser::parse` with the parser's optional source
hat. -/
def parse (source : Option (List Char)) (output : List Char) : List Event :=
  parseAux (output.length + 1) source output

example : parse none (s2l "<event topic=\"impl.done\">Done</event>") =
    [{ topic := s2l "impl.done", payload := s2l "Done", source := none, target := none }] := by
  decide

example : parse (some (s2l "implementer")) (s2l "<event topic=\"handoff\" target=\"reviewer\">Please review</event>") =
    [{ topic := s2l "handoff", payload := s2l "Please review",
       source := some (s2l "implementer"), target := some (s2l "reviewer") }] := by
  decide

/-- The pattern occurs at `i` and at no earlier index: `i` is the index
returned by Rust's `str::find`. -/
def isFirstOccurAt (l pat : List Char) (i : Nat) : Prop :=
  occursAt l pat i = true ∧ ∀ j, j < i → occursAt l pat j = false

instance (l pat : List Char) (i : Nat) : Decidable (isFirstOccurAt l pat i) := by
  unfold isFirstOccurAt
  infer_instance

theorem findSub_eq_of_firstOccur (l pat : List Char) (i : Nat)
    (h : isFirstOccurAt l pat i) : findSub l pat = some i := by
  have hs := findSub_complete l pat i h.1
  cases hf : findSub l pat with
  | none => rw [hf] at hs; simp at hs
  | some j =>
    rcases Nat.lt_trichotomy i j with hlt | heq | hgt
    · have := findSub_min l pat j hf i hlt
      rw [h.1] at this
      simp at this
    · rw [heq]
    · have := h.2 j hgt
      rw [findSub_sound l pat j hf] at this
      simp at this

/-- C10: attribute extraction is a plain substring probe: if `attr="` first
occurs in the tag at index `i` and the next `"` follows `j` characters
later, `extract_attr` returns exactly those `j` characters, with no check
that the occurrence is a whole attribute name; consequently the tag
`<event nottopic="x">payload</event>` parses as an event with topic `x`. -/
theorem C10_extract_attr_substring_probe :
    (∀ tag attr i j, isFirstOccurAt tag (attr ++ s2l "=\"") i →
      isFirstOccurAt (tag.drop (i + (attr ++ s2l "=\"").length)) (s2l "\"") j →
      extract_attr tag attr = some ((tag.drop (i + (attr ++ s2l "=\"").length)).take j)) ∧
    parse none (s2l "<event nottopic=\"x\">payload</event>") =
      [{ topic := s2l "x", payload := s2l "payload", source := none, target := none }] := by
  constructor
  · intro tag attr i j h1 h2
    rw [extract_attr]
    simp only [findSub_eq_of_firstOccur _ _ _ h1, findSub_eq_of_firstOccur _ _ _ h2]
  · decide

/-- Witness for C10: in the tag `<event nottopic="x">` the probe pattern
`topic="` first occurs at index 10 (inside the attribute name `nottopic`),
and the extracted value is `x`. -/
theorem C10_extract_attr_substring_probe_witness :
    extract_attr (s2l "<event nottopic=\"x\">") (s2l "topic") =
      some (((s2l "<event nottopic=\"x\">").drop
        (10 + (s2l "topic" ++ s2l "=\"").length)).take 1) :=
  C10_extract_attr_substring_probe.1 (s2l "<event nottopic=\"x\">") (s2l "topic") 10 1
    (by decide) (by decide)

example : strip_event_tags (s2l "before <event topic=\"test\">payload</event> after")
    = s2l "before  after" := by decide

example : contains_promise (s2l "prefix LOOP_COMPLETE suffix") (s2l "LOOP_COMPLETE") = true := by
  decide

example : contains_promise (s2l "<event topic=\"build.task\">Fix LOOP_COMPLETE detection</event>")
    (s2l "LOOP_COMPLETE") = false := by decide

end Ralph
